import Mathlib

/-! Verification of the PR (personal-record) subsystem of the Fithub client
(workout service module: `calculatePRs`, `getPRSummaryForRecord`, `getPRKey`,
`dateHasPR`, `dateHasCurrentPR`) against its natural-language specification.

Modeling conventions for the shallow embedding of the TypeScript source:

* JS numbers (`weight`, `reps`) are modeled as `ℚ`.  The PR logic only ever
  compares these fields (`>`/`===`); it performs no arithmetic on them, so an
  ordered-field model of the stored decimal values is exact.
* JS strings are Lean `String`s; `startsWith` and lexicographic comparison are
  modeled structurally on `String.data` (the underlying character list).
* A JS object used as a string-keyed map is an insertion-ordered association
  list with unique keys; property assignment keeps the position of an existing
  key and appends a fresh key, as JS objects do; `Object.keys` is `map Prod.fst`.
* Optional boolean properties (absent or `true`) are `Option Bool`; JS
  truthiness of such a property is `truthy` (`undefined` is falsy).
* `[...records].sort(cmp)` with the comparator
  `(a, b) => new Date(a.date).getTime() - new Date(b.date).getTime()` is a
  stable ascending sort by date; on the ISO `YYYY-MM-DD` date strings of the
  data model the `Date.getTime` order coincides with lexicographic character
  order, which is how the comparator is modeled.  `List.insertionSort` is a
  stable sort, matching the stability ECMAScript guarantees for `sort`.
-/

namespace Fithub

/-- JS truthiness of an optional boolean property (`undefined` is falsy). -/
def truthy : Option Bool → Bool
  | some b => b
  | none => false

/-- JS `x > y` where `y` may be `undefined` (any comparison with `undefined`
is false). -/
def jsGt (x : ℚ) : Option ℚ → Bool
  | some y => decide (y < x)
  | none => false

/-- JS `x === y` where `y` may be `undefined`. -/
def jsEq (x : ℚ) : Option ℚ → Bool
  | some y => decide (x = y)
  | none => false

/-- JS falsiness of a possibly-undefined numeric property (`undefined` and `0`
are falsy; the data carries no `NaN`). -/
def jsFalsyNum : Option ℚ → Bool
  | none => true
  | some x => decide (x = 0)

/-- Reading a JS object property: `m[k]`. -/
def mapGet {β : Type} (m : List (String × β)) (k : String) : Option β :=
  match m with
  | [] => none
  | (k', v) :: rest => if k' = k then some v else mapGet rest k

/-- Writing a JS object property `m[k] = v`: an existing key keeps its
position, a fresh key is appended (JS string-key property order). -/
def mapSet {β : Type} (m : List (String × β)) (k : String) (v : β) :
    List (String × β) :=
  match m with
  | [] => [(k, v)]
  | (k', v') :: rest =>
    if k' = k then (k, v) :: rest else (k', v') :: mapSet rest k v

/-- `TrainingSet` (types/exercise.ts): one set within an exercise. -/
structure TrainingSet where
  id : Int
  setNumber : Int
  weight : ℚ
  reps : ℚ
  deriving DecidableEq

/-- `TrainingRecordExercise` (types/exercise.ts): one exercise performed within
a record.  The optional tag metadata is not read by the PR subsystem and is
omitted. -/
structure TrainingRecordExercise where
  id : Int
  name : String
  muscle : String
  custom : Bool
  sets : List TrainingSet
  deriving DecidableEq

/-- `TrainingRecord` (types/exercise.ts): one calendar date's workout session.
The optional memo/experience response fields are not read by the PR subsystem
and are omitted. -/
structure TrainingRecord where
  id : Int
  date : String
  exercises : List TrainingRecordExercise
  deriving DecidableEq

/-- `PRInfo`: derived record-breaking data for one `(date, exercise, setIndex)`
triple.  The four boolean flags are optional properties in the source
(absent unless set), hence `Option Bool` here. -/
structure PRInfo where
  maxWeightPR : Option Bool := none
  repPR : Option Bool := none
  isCurrentMaxPR : Option Bool := none
  isCurrentRepPR : Option Bool := none
  date : String
  exercise : String
  weight : ℚ
  reps : ℚ
  setIndex : ℕ
  deriving DecidableEq

/-- `PRData`: the JS object keyed by PR key. -/
abbrev PRData := List (String × PRInfo)

/-- The `{ [exerciseName: string]: number }` running-maxima objects. -/
abbrev NumMap := List (String × ℚ)

/-- `PRCalculationResult`; also used as the running state of the replay, since
the source returns exactly its three mutable locals. -/
structure PRCalculationResult where
  prData : PRData
  maxWeightByExercise : NumMap
  maxRepsAtMaxWeight : NumMap
  deriving DecidableEq

/-- `getPRKey`: the PR key `date ++ "_" ++ exerciseName ++ "_" ++ setIndex`. -/
def getPRKey (date : String) (exerciseName : String) (setIndex : ℕ) : String :=
  date ++ "_" ++ exerciseName ++ "_" ++ toString setIndex

/-- `startsWith` on character lists (structural model of JS
`String.prototype.startsWith`). -/
def charsStartWith : List Char → List Char → Bool
  | _, [] => true
  | [], _ :: _ => false
  | c :: cs, p :: ps => if p = c then charsStartWith cs ps else false

/-- JS `s.startsWith(pre)`. -/
def strStartsWith (s pre : String) : Bool :=
  charsStartWith s.data pre.data

/-- `dateHasPR`: does any key of the map start with `dateStr ++ "_"`. -/
def dateHasPR (prData : PRData) (dateStr : String) : Bool :=
  (prData.map Prod.fst).any fun key => strStartsWith key (dateStr ++ "_")

/-- `dateHasCurrentPR`: does any key with prefix `dateStr ++ "_"` map to an
entry whose `isCurrentMaxPR` or `isCurrentRepPR` is truthy. -/
def dateHasCurrentPR (prData : PRData) (dateStr : String) : Bool :=
  (prData.map Prod.fst).any fun key =>
    if strStartsWith key (dateStr ++ "_") then
      match mapGet prData key with
      | some pr => truthy pr.isCurrentMaxPR || truthy pr.isCurrentRepPR
      | none => false
    else false

/-- The sort comparator of `calculatePRs`
(`new Date(a.date).getTime() - new Date(b.date).getTime()`, ascending): on the
ISO `YYYY-MM-DD` date strings of the data model, `Date.getTime` order is
lexicographic character order. -/
def recordLe (a b : TrainingRecord) : Prop :=
  a.date.data ≤ b.date.data

instance : DecidableRel recordLe := fun a b =>
  inferInstanceAs (Decidable (a.date.data ≤ b.date.data))

instance : IsTrans TrainingRecord recordLe :=
  ⟨fun _ _ _ hab hbc => le_trans hab hbc⟩

instance : IsTotal TrainingRecord recordLe :=
  ⟨fun a b => le_total a.date.data b.date.data⟩

/-- One iteration of the inner set loop of `calculatePRs`: the max-weight-PR
branch, the rep-PR branch, or no entry. -/
def processSet (date exerciseName : String) (st : PRCalculationResult)
    (setIndex : ℕ) (s : TrainingSet) : PRCalculationResult :=
  if jsGt s.weight (mapGet st.maxWeightByExercise exerciseName) then
    { prData := mapSet st.prData (getPRKey date exerciseName setIndex)
        { maxWeightPR := some true, repPR := some true,
          date := date, exercise := exerciseName,
          weight := s.weight, reps := s.reps, setIndex := setIndex },
      maxWeightByExercise := mapSet st.maxWeightByExercise exerciseName s.weight,
      maxRepsAtMaxWeight := mapSet st.maxRepsAtMaxWeight exerciseName s.reps }
  else if jsEq s.weight (mapGet st.maxWeightByExercise exerciseName)
      && jsGt s.reps (mapGet st.maxRepsAtMaxWeight exerciseName) then
    { prData := mapSet st.prData (getPRKey date exerciseName setIndex)
        { repPR := some true,
          date := date, exercise := exerciseName,
          weight := s.weight, reps := s.reps, setIndex := setIndex },
      maxWeightByExercise := st.maxWeightByExercise,
      maxRepsAtMaxWeight := mapSet st.maxRepsAtMaxWeight exerciseName s.reps }
  else st

/-- One iteration of the exercise loop: the source's truthiness check
`if (!maxWeightByExercise[exerciseName])` assigns 0 to both running maxima
when the stored max weight is absent or 0, then the sets are scanned with
their 0-based index. -/
def processExercise (date : String) (st : PRCalculationResult)
    (ex : TrainingRecordExercise) : PRCalculationResult :=
  let st1 :=
    if jsFalsyNum (mapGet st.maxWeightByExercise ex.name) then
      { st with
          maxWeightByExercise := mapSet st.maxWeightByExercise ex.name 0,
          maxRepsAtMaxWeight := mapSet st.maxRepsAtMaxWeight ex.name 0 }
    else st
  ex.sets.enum.foldl (fun acc p => processSet date ex.name acc p.1 p.2) st1

/-- One iteration of the record loop of the chronological replay. -/
def processRecord (st : PRCalculationResult) (r : TrainingRecord) :
    PRCalculationResult :=
  r.exercises.foldl (processExercise r.date) st

/-- The second pass of `calculatePRs` over one stored entry: skip entries with
a falsy exercise name, set `isCurrentMaxPR` when the historical `maxWeightPR`
flag is truthy and the weight still equals the final max weight, and set
`isCurrentRepPR` when `repPR` is truthy and weight and reps equal the final
maxima. -/
def markCurrent (maxW maxR : NumMap) (pr : PRInfo) : PRInfo :=
  if pr.exercise = "" then pr
  else
    let pr1 :=
      if truthy pr.maxWeightPR && jsEq pr.weight (mapGet maxW pr.exercise) then
        { pr with isCurrentMaxPR := some true }
      else pr
    if truthy pr1.repPR && jsEq pr1.weight (mapGet maxW pr1.exercise)
        && jsEq pr1.reps (mapGet maxR pr1.exercise) then
      { pr1 with isCurrentRepPR := some true }
    else pr1

/-- The chronological replay of `calculatePRs`: sort a copy of the records
ascending by date and fold the record loop over it, starting from empty
`prData` and empty maxima objects. -/
def replay (records : List TrainingRecord) : PRCalculationResult :=
  (List.insertionSort recordLe records).foldl processRecord ⟨[], [], []⟩

/-- `calculatePRs`: the chronological replay followed by the second
(current-PR) pass over every stored entry. -/
def calculatePRs (records : List TrainingRecord) : PRCalculationResult :=
  { prData := (replay records).prData.map fun kv =>
      (kv.1, markCurrent (replay records).maxWeightByExercise
        (replay records).maxRepsAtMaxWeight kv.2),
    maxWeightByExercise := (replay records).maxWeightByExercise,
    maxRepsAtMaxWeight := (replay records).maxRepsAtMaxWeight }

/-- `PRSummaryItem` of `getPRSummaryForRecord`. -/
structure PRSummaryItem where
  exercise : String
  weight : ℚ
  reps : ℚ
  isMaxWeightPR : Bool
  isRepPR : Bool
  isCurrentMaxPR : Bool
  isCurrentRepPR : Bool
  deriving DecidableEq

/-- The result triple of `getPRSummaryForRecord`. -/
structure PRSummary where
  hasPR : Bool
  hasNowPR : Bool
  prSummary : List PRSummaryItem
  deriving DecidableEq

/-- One iteration of the set loop of `getPRSummaryForRecord`. -/
def summarizeSet (date exName : String) (prData : PRData) (acc : PRSummary)
    (setIndex : ℕ) (s : TrainingSet) : PRSummary :=
  match mapGet prData (getPRKey date exName setIndex) with
  | none => acc
  | some pr =>
    let acc1 := { acc with hasPR := true }
    let acc2 :=
      if truthy pr.isCurrentMaxPR || truthy pr.isCurrentRepPR then
        { acc1 with hasNowPR := true }
      else acc1
    if truthy pr.maxWeightPR || truthy pr.repPR then
      { acc2 with prSummary := acc2.prSummary ++
          [{ exercise := exName, weight := s.weight, reps := s.reps,
             isMaxWeightPR := truthy pr.maxWeightPR,
             isRepPR := truthy pr.repPR,
             isCurrentMaxPR := truthy pr.isCurrentMaxPR,
             isCurrentRepPR := truthy pr.isCurrentRepPR }] }
    else acc2

/-- `getPRSummaryForRecord`: project the PR map onto one record's sets in
stored iteration order. -/
def getPRSummaryForRecord (record : TrainingRecord) (prData : PRData) :
    PRSummary :=
  record.exercises.foldl
    (fun acc ex =>
      ex.sets.enum.foldl
        (fun acc p => summarizeSet record.date ex.name prData acc p.1 p.2) acc)
    { hasPR := false, hasNowPR := false, prSummary := [] }

/-! ### Specification-side measures

These definitions formalize the quantities the specification's sentences speak
about (all sets of an exercise name, counts of a record's sets present in a PR
map, the maximum of a collection).  They are not part of the embedded source;
the theorems below compare the embedded functions against them. -/

/-- All `(weight, reps)` pairs of the sets of exercise entries named `n` in an
exercise list, in iteration order. -/
def exsSets (n : String) (exs : List TrainingRecordExercise) : List (ℚ × ℚ) :=
  (exs.filter fun ex => decide (ex.name = n)).flatMap fun ex =>
    ex.sets.map fun s => (s.weight, s.reps)

/-- All `(weight, reps)` pairs of the sets of exercise name `n` in one record. -/
def recSets (n : String) (r : TrainingRecord) : List (ℚ × ℚ) :=
  exsSets n r.exercises

/-- All `(weight, reps)` pairs of the sets of exercise name `n` across a record
list, in list order. -/
def allSets (n : String) (rs : List TrainingRecord) : List (ℚ × ℚ) :=
  rs.flatMap (recSets n)

/-- The PR keys of a record's sets, in set iteration order. -/
def recordKeys (record : TrainingRecord) : List String :=
  record.exercises.flatMap fun ex =>
    ex.sets.enum.map fun p => getPRKey record.date ex.name p.1

/-- The number of the record's sets whose PR key is present in the map. -/
def presentCount (record : TrainingRecord) (pd : PRData) : ℕ :=
  (recordKeys record).countP fun k => (mapGet pd k).isSome

/-- The number of the record's sets whose PR key maps to an entry carrying a
truthy `maxWeightPR` or `repPR` flag. -/
def flaggedCount (record : TrainingRecord) (pd : PRData) : ℕ :=
  (recordKeys record).countP fun k =>
    match mapGet pd k with
    | some pr => truthy pr.maxWeightPR || truthy pr.repPR
    | none => false

/-- `mw` is the maximum weight of `L` and `mr` the maximum reps among the
pairs of `L` attaining that weight — or `L` is empty and both are 0 (the
initialized state for a name with no processed sets yet). -/
def maximaChar (L : List (ℚ × ℚ)) (mw mr : ℚ) : Prop :=
  (L = [] ∧ mw = 0 ∧ mr = 0) ∨
  (mw ∈ L.map Prod.fst ∧ (∀ w ∈ L.map Prod.fst, w ≤ mw) ∧
   mr ∈ (L.filter fun p => decide (p.1 = mw)).map Prod.snd ∧
   (∀ x ∈ (L.filter fun p => decide (p.1 = mw)).map Prod.snd, x ≤ mr))

/-- The replay invariant of the running maxima for one exercise name `n`:
either `n` was never initialized (and has no sets `L` so far), or both maxima
are present and characterize `L`. -/
def trackInv (n : String) (L : List (ℚ × ℚ)) (st : PRCalculationResult) : Prop :=
  (mapGet st.maxWeightByExercise n = none ∧
    mapGet st.maxRepsAtMaxWeight n = none ∧ L = []) ∨
  (∃ mw mr, mapGet st.maxWeightByExercise n = some mw ∧
    mapGet st.maxRepsAtMaxWeight n = some mr ∧ maximaChar L mw mr)

/-- Invariant of every entry stored by the replay (before the second pass):
`repPR` is set, `maxWeightPR` is either set or absent (never `false`), and the
current-PR flags are still absent. -/
def replayEntryInv (e : PRInfo) : Prop :=
  e.repPR = some true ∧ e.maxWeightPR ≠ some false ∧
  e.isCurrentMaxPR = none ∧ e.isCurrentRepPR = none

/-- Test fixture: the entry `calculatePRs` stores for a lone 100kg×5 set of
exercise "B" on 2024-01-01. -/
def benchEntry : PRInfo :=
  { maxWeightPR := some true, repPR := some true,
    isCurrentMaxPR := some true, isCurrentRepPR := some true,
    date := "2024-01-01", exercise := "B", weight := 100, reps := 5,
    setIndex := 0 }

/-- Test fixture: a record of date `d` with a single exercise named `n`
holding a single set `w × rp`. -/
def singleSetRecord (i : Int) (d n : String) (w rp : ℚ) : TrainingRecord :=
  { id := i, date := d,
    exercises := [{ id := i, name := n, muscle := "", custom := false,
                    sets := [{ id := i, setNumber := 1, weight := w, reps := rp }] }] }

/-! ### Lemmas about the JS-object model -/

theorem mapGet_mapSet_self {β : Type} (m : List (String × β)) (k : String)
    (v : β) : mapGet (mapSet m k v) k = some v := by
  induction m with
  | nil => simp [mapSet, mapGet]
  | cons kv rest ih =>
    obtain ⟨k₀, v₀⟩ := kv
    by_cases h : k₀ = k
    · simp [mapSet, mapGet, h]
    · simp [mapSet, mapGet, h, ih]

theorem mapGet_mapSet_ne {β : Type} (m : List (String × β)) {k k' : String}
    (v : β) (h : k' ≠ k) : mapGet (mapSet m k v) k' = mapGet m k' := by
  induction m with
  | nil => simp [mapSet, mapGet, Ne.symm h]
  | cons kv rest ih =>
    obtain ⟨k₀, v₀⟩ := kv
    by_cases h0 : k₀ = k
    · subst h0
      simp [mapSet, mapGet, Ne.symm h]
    · simp [mapSet, mapGet, h0, ih]

theorem mem_mapSet {β : Type} {m : List (String × β)} {k : String} {v : β}
    {kv : String × β} (h : kv ∈ mapSet m k v) : kv = (k, v) ∨ kv ∈ m := by
  induction m with
  | nil => simpa [mapSet] using h
  | cons kv₀ rest ih =>
    obtain ⟨k₀, v₀⟩ := kv₀
    by_cases h0 : k₀ = k
    · simp only [mapSet, if_pos h0, List.mem_cons] at h
      rcases h with h | h
      · exact Or.inl h
      · exact Or.inr (List.mem_cons_of_mem _ h)
    · simp only [mapSet, if_neg h0, List.mem_cons] at h
      rcases h with h | h
      · exact Or.inr (by simp [h])
      · rcases ih h with h1 | h1
        · exact Or.inl h1
        · exact Or.inr (List.mem_cons_of_mem _ h1)

theorem mapGet_eq_some_mem {β : Type} {m : List (String × β)} {k : String}
    {v : β} (h : mapGet m k = some v) : (k, v) ∈ m := by
  induction m with
  | nil => simp [mapGet] at h
  | cons kv rest ih =>
    obtain ⟨k₀, v₀⟩ := kv
    by_cases h0 : k₀ = k
    · subst h0
      simp only [mapGet, if_pos rfl] at h
      simp [mapGet] at h
      simp [h]
    · simp only [mapGet, if_neg h0] at h
      exact List.mem_cons_of_mem _ (ih h)

theorem mapGet_of_mem_nodup {β : Type} {m : List (String × β)}
    {kv : String × β} (hnd : (m.map Prod.fst).Nodup) (h : kv ∈ m) :
    mapGet m kv.1 = some kv.2 := by
  induction m with
  | nil => simp at h
  | cons kv₀ rest ih =>
    obtain ⟨k₀, v₀⟩ := kv₀
    simp only [List.map_cons, List.nodup_cons] at hnd
    rcases List.mem_cons.mp h with h | h
    · subst h
      simp [mapGet]
    · have hne : k₀ ≠ kv.1 := by
        intro e
        exact hnd.1 (e ▸ List.mem_map_of_mem Prod.fst h)
      simp only [mapGet, if_neg hne]
      exact ih hnd.2 h

theorem mapGet_map_value {β γ : Type} (f : β → γ) (m : List (String × β))
    (k : String) :
    mapGet (m.map fun kv => (kv.1, f kv.2)) k = (mapGet m k).map f := by
  induction m with
  | nil => simp [mapGet]
  | cons kv rest ih =>
    by_cases h : kv.1 = k
    · simp [mapGet, h]
    · simp [mapGet, h, ih]

/-! ### Step lemmas for the replay -/

theorem processSet_frame (date n : String) (st : PRCalculationResult) (si : ℕ)
    (s : TrainingSet) {m : String} (h : m ≠ n) :
    mapGet (processSet date n st si s).maxWeightByExercise m
        = mapGet st.maxWeightByExercise m ∧
    mapGet (processSet date n st si s).maxRepsAtMaxWeight m
        = mapGet st.maxRepsAtMaxWeight m := by
  unfold processSet
  split
  · exact ⟨mapGet_mapSet_ne _ _ h, mapGet_mapSet_ne _ _ h⟩
  · split
    · exact ⟨rfl, mapGet_mapSet_ne _ _ h⟩
    · exact ⟨rfl, rfl⟩

theorem processSet_fold_frame (date n : String) (ps : List (ℕ × TrainingSet))
    (st : PRCalculationResult) {m : String} (h : m ≠ n) :
    mapGet ((ps.foldl (fun acc p => processSet date n acc p.1 p.2)
        st).maxWeightByExercise) m = mapGet st.maxWeightByExercise m ∧
    mapGet ((ps.foldl (fun acc p => processSet date n acc p.1 p.2)
        st).maxRepsAtMaxWeight) m = mapGet st.maxRepsAtMaxWeight m := by
  induction ps generalizing st with
  | nil => exact ⟨rfl, rfl⟩
  | cons p rest ih =>
    simp only [List.foldl_cons]
    constructor
    · exact ((ih (processSet date n st p.1 p.2)).1).trans
        (processSet_frame date n st p.1 p.2 h).1
    · exact ((ih (processSet date n st p.1 p.2)).2).trans
        (processSet_frame date n st p.1 p.2 h).2

theorem processExercise_frame (date : String) (st : PRCalculationResult)
    (ex : TrainingRecordExercise) {m : String} (h : m ≠ ex.name) :
    mapGet (processExercise date st ex).maxWeightByExercise m
        = mapGet st.maxWeightByExercise m ∧
    mapGet (processExercise date st ex).maxRepsAtMaxWeight m
        = mapGet st.maxRepsAtMaxWeight m := by
  unfold processExercise
  constructor
  · refine (processSet_fold_frame date ex.name ex.sets.enum _ h).1.trans ?_
    split
    · exact mapGet_mapSet_ne _ _ h
    · rfl
  · refine (processSet_fold_frame date ex.name ex.sets.enum _ h).2.trans ?_
    split
    · exact mapGet_mapSet_ne _ _ h
    · rfl

/-- The PR keys of the two scenario dates differ for every exercise name. -/
theorem key_ne_scenario (n : String) :
    getPRKey "2024-01-01" n 0 ≠ getPRKey "2024-01-02" n 0 := by
  intro h
  have h' := congrArg String.data h
  simp only [getPRKey, String.data_append] at h'
  have h2 := List.append_cancel_right (List.append_cancel_right
    (List.append_cancel_right (List.append_cancel_right h')))
  exact absurd h2 (by decide)

/-! ### C1 -/

/-- **C1 (amended).** In `calculatePRs`, a set whose weight is not strictly
greater than the running max weight of its exercise name and that does not tie
that max with strictly greater reps leaves the replay state unchanged (in
particular no `PRInfo` entry is created for it); and for every *strictly
positive* weight `w`, a `w×r` set followed on a later date by a `w×r'` set
with `r' ≤ r` of the same exercise creates no entry for the second occurrence.
The claim's "this holds for every weight value (including weight 0)" is false:
when the running max weight is 0 the per-exercise-visit re-initialization
resets the rep counter to 0, so a later equal-weight equal-reps weight-0 set
does create an entry (see the counterexample). -/
theorem C1_theorem :
    (∀ (date exName : String) (st : PRCalculationResult) (si : ℕ)
        (s : TrainingSet) (curW curR : ℚ),
        mapGet st.maxWeightByExercise exName = some curW →
        mapGet st.maxRepsAtMaxWeight exName = some curR →
        ¬ curW < s.weight → ¬ (s.weight = curW ∧ curR < s.reps) →
        processSet date exName st si s = st) ∧
    (∀ (exName : String) (w r r' : ℚ), 0 < w → r' ≤ r →
        mapGet (calculatePRs
          [singleSetRecord 1 "2024-01-01" exName w r,
           singleSetRecord 2 "2024-01-02" exName w r']).prData
          (getPRKey "2024-01-02" exName 0) = none) := by
  constructor
  · intro date exName st si s curW curR hW hR h1 h2
    have hc1 : jsGt s.weight (mapGet st.maxWeightByExercise exName) = false := by
      rw [hW]; simp [jsGt, h1]
    have hc2 : (jsEq s.weight (mapGet st.maxWeightByExercise exName)
        && jsGt s.reps (mapGet st.maxRepsAtMaxWeight exName)) = false := by
      rw [hW, hR]
      by_cases heq : s.weight = curW
      · have hnr : ¬ curR < s.reps := fun hlt => h2 ⟨heq, hlt⟩
        simp [jsEq, jsGt, hnr]
      · simp [jsEq, jsGt, heq]
    simp [processSet, hc1, hc2]
  · intro exName w r r' hw hr
    have hw0 : w ≠ 0 := ne_of_gt hw
    have hnlt : ¬ w < w := lt_irrefl w
    have hnlt2 : ¬ r < r' := not_lt.mpr hr
    have hsort : List.Sorted recordLe
        [singleSetRecord 1 "2024-01-01" exName w r,
         singleSetRecord 2 "2024-01-02" exName w r'] := by
      simp only [List.sorted_cons, List.mem_singleton, List.sorted_singleton]
      refine ⟨fun b hb => ?_, by simp⟩
      subst hb
      show ("2024-01-01").data ≤ ("2024-01-02").data
      decide
    unfold calculatePRs replay
    rw [List.Sorted.insertionSort_eq hsort]
    simp only [List.foldl_cons, List.foldl_nil, singleSetRecord, processRecord,
      processExercise, List.enum_cons, List.enum_nil, processSet, mapGet,
      mapSet, jsFalsyNum, jsGt, jsEq]
    simp [hw0, hw, hnlt, hnlt2, mapGet, Ne.symm (key_ne_scenario exName)]
    exact key_ne_scenario exName

/-- Witness for C1: both parts applied at concrete inputs (a 100kg×3 set
against a running 100kg×5 maximum, and the 100kg×5-then-100kg×3 scenario). -/
theorem C1_witness :
    processSet "2024-01-03" "Bench" ⟨[], [("Bench", 100)], [("Bench", 5)]⟩ 0
        ⟨3, 1, 100, 3⟩ = ⟨[], [("Bench", 100)], [("Bench", 5)]⟩ ∧
    mapGet (calculatePRs
      [singleSetRecord 1 "2024-01-01" "Bench" 100 5,
       singleSetRecord 2 "2024-01-02" "Bench" 100 3]).prData
      (getPRKey "2024-01-02" "Bench" 0) = none :=
  ⟨C1_theorem.1 "2024-01-03" "Bench" ⟨[], [("Bench", 100)], [("Bench", 5)]⟩ 0
      ⟨3, 1, 100, 3⟩ 100 5 (by decide) (by decide) (by decide)
      (fun h => absurd h.2 (by decide)),
   C1_theorem.2 "Bench" 100 5 3 (by decide) (by decide)⟩

/-- Counterexample to C1 as stated: with weight 0, a 0kg×5 set on 2024-01-01
followed by an identical 0kg×5 set of the same exercise on 2024-01-02 *does*
create a `PRInfo` entry for the second occurrence (the falsy-check
re-initialization reset the rep counter to 0 in between). -/
theorem C1_counterexample :
    (mapGet (calculatePRs
      [singleSetRecord 1 "2024-01-01" "E" 0 5,
       singleSetRecord 2 "2024-01-02" "E" 0 5]).prData
      (getPRKey "2024-01-02" "E" 0)).isSome = true := by decide

/-! ### C4 -/

/-- **C4.** Whenever a set's weight is strictly greater than the running
`maxWeightByExercise` for its exercise name, `processSet` sets the running max
weight to that weight, resets the running max reps to that set's reps, and
stores at the key `(date, exercise name, set index)` an entry with both
`maxWeightPR = true` and `repPR = true` (and the set's data). -/
theorem C4_theorem (date exName : String) (st : PRCalculationResult) (si : ℕ)
    (s : TrainingSet) (curW : ℚ)
    (hW : mapGet st.maxWeightByExercise exName = some curW)
    (hgt : curW < s.weight) :
    mapGet (processSet date exName st si s).maxWeightByExercise exName
        = some s.weight ∧
    mapGet (processSet date exName st si s).maxRepsAtMaxWeight exName
        = some s.reps ∧
    mapGet (processSet date exName st si s).prData (getPRKey date exName si) =
      some { maxWeightPR := some true, repPR := some true,
             date := date, exercise := exName,
             weight := s.weight, reps := s.reps, setIndex := si } := by
  have hc : jsGt s.weight (mapGet st.maxWeightByExercise exName) = true := by
    rw [hW]; simp [jsGt, hgt]
  refine ⟨?_, ?_, ?_⟩ <;> simp [processSet, hc, mapGet_mapSet_self]

/-- Witness for C4: a 110kg×3 set against a running 100kg×5 maximum. -/
theorem C4_witness :
    mapGet (PRCalculationResult.mk [] [("Bench", 100)]
        [("Bench", 5)]).maxWeightByExercise "Bench" = some 100 ∧
    (100 : ℚ) < 110 ∧
    (mapGet (processSet "2024-01-05" "Bench"
        ⟨[], [("Bench", 100)], [("Bench", 5)]⟩ 0
        ⟨9, 1, 110, 3⟩).maxWeightByExercise "Bench" = some 110 ∧
      mapGet (processSet "2024-01-05" "Bench"
        ⟨[], [("Bench", 100)], [("Bench", 5)]⟩ 0
        ⟨9, 1, 110, 3⟩).maxRepsAtMaxWeight "Bench" = some 3 ∧
      mapGet (processSet "2024-01-05" "Bench"
        ⟨[], [("Bench", 100)], [("Bench", 5)]⟩ 0
        ⟨9, 1, 110, 3⟩).prData (getPRKey "2024-01-05" "Bench" 0) =
        some { maxWeightPR := some true, repPR := some true,
               date := "2024-01-05", exercise := "Bench",
               weight := 110, reps := 3, setIndex := 0 }) :=
  ⟨by decide, by decide,
   C4_theorem "2024-01-05" "Bench" ⟨[], [("Bench", 100)], [("Bench", 5)]⟩ 0
     ⟨9, 1, 110, 3⟩ 100 (by decide) (by decide)⟩

/-! ### C8 -/

/-- `orderedInsert` splits the target list around the inserted element. -/
theorem orderedInsert_split (r : TrainingRecord) (L : List TrainingRecord) :
    ∃ L₁ L₂, List.orderedInsert recordLe r L = L₁ ++ r :: L₂ ∧ L = L₁ ++ L₂ := by
  induction L with
  | nil => exact ⟨[], [], rfl, rfl⟩
  | cons b bs ih =>
    by_cases h : recordLe r b
    · exact ⟨[], b :: bs, by simp [List.orderedInsert, h], rfl⟩
    · obtain ⟨L₁, L₂, h1, h2⟩ := ih
      exact ⟨b :: L₁, L₂, by simp [List.orderedInsert, h, h1], by simp [h2]⟩

/-- **C8 (amended).** `calculatePRs` and `getPRSummaryForRecord` are total
over sparse input: empty input yields the all-empty result; a record with no
exercises contributes nothing to the result; an exercise entry with no sets
contributes no `PRInfo` entry (but — contrary to the claim — it *does*
initialize the maxima mappings at its name with 0, see the counterexample);
and a record with no exercises produces the empty summary. -/
theorem C8_theorem :
    calculatePRs [] = ⟨[], [], []⟩ ∧
    (∀ (r : TrainingRecord) (l : List TrainingRecord), r.exercises = [] →
      calculatePRs (r :: l) = calculatePRs l) ∧
    (∀ (date : String) (st : PRCalculationResult) (ex : TrainingRecordExercise),
      ex.sets = [] → (processExercise date st ex).prData = st.prData) ∧
    (∀ (record : TrainingRecord) (pd : PRData), record.exercises = [] →
      getPRSummaryForRecord record pd = ⟨false, false, []⟩) := by
  refine ⟨rfl, ?_, ?_, ?_⟩
  · intro r l hre
    have hstep : ∀ st, processRecord st r = st := by
      intro st; unfold processRecord; rw [hre]; rfl
    obtain ⟨L₁, L₂, h1, h2⟩ := orderedInsert_split r (List.insertionSort recordLe l)
    have hsort : List.insertionSort recordLe (r :: l) = L₁ ++ r :: L₂ := by
      rw [← h1]; rfl
    unfold calculatePRs replay
    rw [hsort, h2]
    simp [List.foldl_append, hstep]
  · intro date st ex hsets
    unfold processExercise
    rw [hsets]
    simp only [List.enum_nil, List.foldl_nil]
    split
    · rfl
    · rfl
  · intro record pd hre
    unfold getPRSummaryForRecord
    rw [hre]
    rfl

/-- Witness for C8: the empty-exercises and empty-sets parts applied at
concrete inputs. -/
theorem C8_witness :
    calculatePRs [TrainingRecord.mk 7 "2024-02-02" [],
        singleSetRecord 1 "2024-01-01" "Bench" 100 5] =
      calculatePRs [singleSetRecord 1 "2024-01-01" "Bench" 100 5] ∧
    (processExercise "2024-01-01" ⟨[], [], []⟩
        ⟨4, "X", "", false, []⟩).prData = [] ∧
    getPRSummaryForRecord (TrainingRecord.mk 7 "2024-02-02" [])
        [] = ⟨false, false, []⟩ :=
  ⟨C8_theorem.2.1 (TrainingRecord.mk 7 "2024-02-02" [])
      [singleSetRecord 1 "2024-01-01" "Bench" 100 5] rfl,
   C8_theorem.2.2.1 "2024-01-01" ⟨[], [], []⟩ ⟨4, "X", "", false, []⟩ rfl,
   C8_theorem.2.2.2 (TrainingRecord.mk 7 "2024-02-02" []) [] rfl⟩

/-- Counterexample to C8 as stated: an exercise entry with an empty sets array
does *not* contribute nothing — it adds its name with value 0 to both returned
maxima mappings. -/
theorem C8_counterexample :
    (calculatePRs [TrainingRecord.mk 1 "2024-01-01"
        [TrainingRecordExercise.mk 1 "X" "" false []]]).maxWeightByExercise
      = [("X", 0)] ∧
    (calculatePRs [TrainingRecord.mk 1 "2024-01-01"
        [TrainingRecordExercise.mk 1 "X" "" false []]]).maxRepsAtMaxWeight
      = [("X", 0)] ∧
    calculatePRs [TrainingRecord.mk 1 "2024-01-01"
        [TrainingRecordExercise.mk 1 "X" "" false []]]
      ≠ calculatePRs [TrainingRecord.mk 1 "2024-01-01" []] := by decide

/-! ### C6 -/

/-- One `summarizeSet` step appends to the summary exactly the item of a
present entry with a truthy historical flag. -/
theorem summarizeSet_prSummary (date exName : String) (pd : PRData)
    (acc : PRSummary) (si : ℕ) (s : TrainingSet) :
    (summarizeSet date exName pd acc si s).prSummary
      = acc.prSummary ++
        (match mapGet pd (getPRKey date exName si) with
         | some pr =>
           if truthy pr.maxWeightPR || truthy pr.repPR then
             [{ exercise := exName, weight := s.weight, reps := s.reps,
                isMaxWeightPR := truthy pr.maxWeightPR,
                isRepPR := truthy pr.repPR,
                isCurrentMaxPR := truthy pr.isCurrentMaxPR,
                isCurrentRepPR := truthy pr.isCurrentRepPR }]
           else []
         | none => []) := by
  rcases hget : mapGet pd (getPRKey date exName si) with _ | pr
  · simp [summarizeSet, hget]
  · by_cases hflag : (truthy pr.maxWeightPR || truthy pr.repPR) = true
    · by_cases hnow : (truthy pr.isCurrentMaxPR || truthy pr.isCurrentRepPR) = true
      · simp [summarizeSet, hget, hflag, hnow]
      · simp [summarizeSet, hget, hflag, hnow]
    · by_cases hnow : (truthy pr.isCurrentMaxPR || truthy pr.isCurrentRepPR) = true
      · simp [summarizeSet, hget, hflag, hnow]
      · simp [summarizeSet, hget, hflag, hnow]

/-- One `summarizeSet` step sets `hasPR` exactly when the key is present. -/
theorem summarizeSet_hasPR (date exName : String) (pd : PRData)
    (acc : PRSummary) (si : ℕ) (s : TrainingSet) :
    (summarizeSet date exName pd acc si s).hasPR
      = (acc.hasPR || (mapGet pd (getPRKey date exName si)).isSome) := by
  rcases hget : mapGet pd (getPRKey date exName si) with _ | pr
  · simp [summarizeSet, hget]
  · by_cases hflag : (truthy pr.maxWeightPR || truthy pr.repPR) = true
    · by_cases hnow : (truthy pr.isCurrentMaxPR || truthy pr.isCurrentRepPR) = true
      · simp [summarizeSet, hget, hflag, hnow]
      · simp [summarizeSet, hget, hflag, hnow]
    · by_cases hnow : (truthy pr.isCurrentMaxPR || truthy pr.isCurrentRepPR) = true
      · simp [summarizeSet, hget, hflag, hnow]
      · simp [summarizeSet, hget, hflag, hnow]

/-- Effect of the inner set loop of `getPRSummaryForRecord` on the summary
length and the `hasPR` flag. -/
theorem summarizeSet_fold_counts (date exName : String) (pd : PRData)
    (ps : List (ℕ × TrainingSet)) (acc : PRSummary) :
    ((ps.foldl (fun a p => summarizeSet date exName pd a p.1 p.2)
        acc).prSummary.length
      = acc.prSummary.length
        + (ps.map fun p => getPRKey date exName p.1).countP (fun k =>
            match mapGet pd k with
            | some pr => truthy pr.maxWeightPR || truthy pr.repPR
            | none => false)) ∧
    ((ps.foldl (fun a p => summarizeSet date exName pd a p.1 p.2) acc).hasPR
      = (acc.hasPR || (ps.map fun p => getPRKey date exName p.1).any
          fun k => (mapGet pd k).isSome)) := by
  induction ps generalizing acc with
  | nil => simp
  | cons p rest ih =>
    simp only [List.foldl_cons, List.map_cons, List.countP_cons, List.any_cons]
    constructor
    · rw [(ih _).1, summarizeSet_prSummary, List.length_append]
      rcases hget : mapGet pd (getPRKey date exName p.1) with _ | pr
      · simp [hget]
      · by_cases hflag : (truthy pr.maxWeightPR || truthy pr.repPR) = true
        · simp only [hget, hflag, if_true, List.length_singleton]
          omega
        · simp only [hget, if_neg hflag, List.length_nil]
          simp [hflag]
    · rw [(ih _).2, summarizeSet_hasPR, Bool.or_assoc]

/-- Effect of the exercise loop of `getPRSummaryForRecord` on the summary
length and the `hasPR` flag, over the flattened key list. -/
theorem summarizeSet_exfold_counts (date : String) (pd : PRData)
    (exs : List TrainingRecordExercise) (acc : PRSummary) :
    ((exs.foldl (fun a ex => ex.sets.enum.foldl
        (fun a p => summarizeSet date ex.name pd a p.1 p.2) a) acc).prSummary.length
      = acc.prSummary.length
        + (exs.flatMap fun ex => ex.sets.enum.map fun p =>
            getPRKey date ex.name p.1).countP (fun k =>
            match mapGet pd k with
            | some pr => truthy pr.maxWeightPR || truthy pr.repPR
            | none => false)) ∧
    ((exs.foldl (fun a ex => ex.sets.enum.foldl
        (fun a p => summarizeSet date ex.name pd a p.1 p.2) a) acc).hasPR
      = (acc.hasPR || (exs.flatMap fun ex => ex.sets.enum.map fun p =>
          getPRKey date ex.name p.1).any fun k => (mapGet pd k).isSome)) := by
  induction exs generalizing acc with
  | nil => simp
  | cons ex rest ih =>
    simp only [List.foldl_cons, List.flatMap_cons, List.countP_append,
      List.any_append]
    refine ⟨((ih _).1).trans ?_, ((ih _).2).trans ?_⟩
    · rw [(summarizeSet_fold_counts date ex.name pd ex.sets.enum acc).1]
      ring
    · rw [(summarizeSet_fold_counts date ex.name pd ex.sets.enum acc).2]
      simp [Bool.or_assoc]

/-- **C6 (amended).** For every record and every PR map, the summary sequence
returned by `getPRSummaryForRecord` has length equal to the number of the
record's sets whose key is present in the map *with a truthy historical flag*
(`maxWeightPR` or `repPR`) — presence alone is not enough, contrary to the
claim — while `hasPR` is true iff the number of sets whose key is present is
at least 1. -/
theorem C6_theorem (record : TrainingRecord) (pd : PRData) :
    (getPRSummaryForRecord record pd).prSummary.length
      = flaggedCount record pd ∧
    ((getPRSummaryForRecord record pd).hasPR = true ↔
      1 ≤ presentCount record pd) := by
  have h := summarizeSet_exfold_counts record.date pd record.exercises
    { hasPR := false, hasNowPR := false, prSummary := [] }
  constructor
  · simp only [getPRSummaryForRecord]
    rw [h.1]
    simp [flaggedCount, recordKeys]
  · simp only [getPRSummaryForRecord]
    rw [h.2]
    simp only [Bool.false_or, List.any_eq_true, presentCount, recordKeys]
    rw [show (1 ≤ (record.exercises.flatMap fun ex => ex.sets.enum.map fun p =>
        getPRKey record.date ex.name p.1).countP fun k => (mapGet pd k).isSome) ↔
      (0 < (record.exercises.flatMap fun ex => ex.sets.enum.map fun p =>
        getPRKey record.date ex.name p.1).countP fun k => (mapGet pd k).isSome)
      from Iff.rfl]
    rw [List.countP_pos_iff]

/-- Counterexample to C6 as stated: a map entry present at a set's key but
carrying no truthy historical flag makes `hasPR` true yet is not appended to
the summary, so the length is 0 while the present-key count is 1. -/
theorem C6_counterexample :
    ¬ ((getPRSummaryForRecord (singleSetRecord 1 "2024-01-01" "E" 100 5)
        [("2024-01-01_E_0",
          PRInfo.mk none none none none "2024-01-01" "E" 100 5 0)]).prSummary.length
      = presentCount (singleSetRecord 1 "2024-01-01" "E" 100 5)
          [("2024-01-01_E_0",
            PRInfo.mk none none none none "2024-01-01" "E" 100 5 0)]) := by
  decide

/-! ### C9 -/

/-- `charsStartWith` is the prefix relation. -/
theorem charsStartWith_iff (s p : List Char) :
    charsStartWith s p = true ↔ ∃ t, s = p ++ t := by
  induction p generalizing s with
  | nil =>
    have h : charsStartWith s [] = true := by cases s <;> rfl
    simp [h]
  | cons c cs ih =>
    cases s with
    | nil => simp [charsStartWith]
    | cons c' cs' =>
      by_cases hc : c = c'
      · subst hc
        simp [charsStartWith, ih]
      · rw [show charsStartWith (c' :: cs') (c :: cs) = false by
          simp [charsStartWith, hc]]
        simp only [Bool.false_eq_true, false_iff]
        rintro ⟨t, ht⟩
        injection ht with h1 _
        exact hc h1.symm

/-- `strStartsWith` is string-prefix: `s` starts with `pre` iff `s` is `pre`
followed by some string. -/
theorem strStartsWith_iff (s pre : String) :
    strStartsWith s pre = true ↔ ∃ t : String, s = pre ++ t := by
  rw [strStartsWith, charsStartWith_iff]
  constructor
  · rintro ⟨t, ht⟩
    exact ⟨⟨t⟩, String.ext (by rw [String.data_append]; exact ht)⟩
  · rintro ⟨t, ht⟩
    exact ⟨t.data, by rw [ht, String.data_append]⟩

/-- **C9.** `dateHasPR(prMap, d)` is true iff some key of the map starts with
`d ++ "_"`, and (for a map with unique keys, as JS objects have)
`dateHasCurrentPR(prMap, d)` is true iff some such key's entry has a truthy
`isCurrentMaxPR` or `isCurrentRepPR`. -/
theorem C9_theorem (pd : PRData) (d : String) :
    (dateHasPR pd d = true ↔
      ∃ k ∈ pd.map Prod.fst, ∃ t : String, k = (d ++ "_") ++ t) ∧
    ((pd.map Prod.fst).Nodup →
      (dateHasCurrentPR pd d = true ↔
        ∃ kv ∈ pd, (∃ t : String, kv.1 = (d ++ "_") ++ t) ∧
          (truthy kv.2.isCurrentMaxPR = true ∨
            truthy kv.2.isCurrentRepPR = true))) := by
  constructor
  · rw [dateHasPR, List.any_eq_true]
    constructor
    · rintro ⟨k, hk, hpre⟩
      exact ⟨k, hk, (strStartsWith_iff k (d ++ "_")).mp hpre⟩
    · rintro ⟨k, hk, hpre⟩
      exact ⟨k, hk, (strStartsWith_iff k (d ++ "_")).mpr hpre⟩
  · intro hnd
    rw [dateHasCurrentPR, List.any_eq_true]
    constructor
    · rintro ⟨k, hk, hcond⟩
      by_cases hpre : strStartsWith k (d ++ "_") = true
      · rw [if_pos hpre] at hcond
        rcases hget : mapGet pd k with _ | pr
        · rw [hget] at hcond; exact absurd hcond (by simp)
        · rw [hget] at hcond
          refine ⟨(k, pr), mapGet_eq_some_mem hget,
            (strStartsWith_iff k (d ++ "_")).mp hpre, ?_⟩
          simpa [Bool.or_eq_true] using hcond
      · rw [if_neg hpre] at hcond
        exact absurd hcond (by simp)
    · rintro ⟨kv, hkv, hpre, hflag⟩
      refine ⟨kv.1, List.mem_map_of_mem Prod.fst hkv, ?_⟩
      rw [if_pos ((strStartsWith_iff kv.1 (d ++ "_")).mpr hpre)]
      rw [mapGet_of_mem_nodup hnd hkv]
      simpa [Bool.or_eq_true] using hflag

/-- Witness for C9: the nodup-keys hypothesis discharged on a concrete
one-entry map whose entry is a current PR. -/
theorem C9_witness :
    (([("2024-01-01_E_0", PRInfo.mk (some true) (some true) (some true)
        (some true) "2024-01-01" "E" 100 5 0)].map
          (Prod.fst (α := String) (β := PRInfo))).Nodup) ∧
    (dateHasCurrentPR [("2024-01-01_E_0", PRInfo.mk (some true) (some true)
        (some true) (some true) "2024-01-01" "E" 100 5 0)] "2024-01-01" = true ↔
      ∃ kv ∈ [("2024-01-01_E_0", PRInfo.mk (some true) (some true) (some true)
          (some true) "2024-01-01" "E" 100 5 0)],
        (∃ t : String, kv.1 = ("2024-01-01" ++ "_") ++ t) ∧
          (truthy kv.2.isCurrentMaxPR = true ∨
            truthy kv.2.isCurrentRepPR = true)) :=
  ⟨by decide,
   (C9_theorem [("2024-01-01_E_0", PRInfo.mk (some true) (some true)
      (some true) (some true) "2024-01-01" "E" 100 5 0)] "2024-01-01").2
    (by decide)⟩

/-! ### The replay entry invariant (C10, C2) -/

theorem processSet_entryInv (date exName : String) (st : PRCalculationResult)
    (si : ℕ) (s : TrainingSet)
    (h : ∀ kv ∈ st.prData, replayEntryInv kv.2) :
    ∀ kv ∈ (processSet date exName st si s).prData, replayEntryInv kv.2 := by
  intro kv hkv
  unfold processSet at hkv
  split at hkv
  · rcases mem_mapSet hkv with he | he
    · rw [he]
      simp [replayEntryInv]
    · exact h kv he
  · split at hkv
    · rcases mem_mapSet hkv with he | he
      · rw [he]
        simp [replayEntryInv]
      · exact h kv he
    · exact h kv hkv

theorem processSet_fold_entryInv (date exName : String)
    (ps : List (ℕ × TrainingSet)) :
    ∀ st : PRCalculationResult, (∀ kv ∈ st.prData, replayEntryInv kv.2) →
      ∀ kv ∈ ((ps.foldl (fun acc p => processSet date exName acc p.1 p.2)
        st).prData), replayEntryInv kv.2 := by
  induction ps with
  | nil => exact fun st h => h
  | cons p rest ih =>
    exact fun st h => ih _ (processSet_entryInv date exName st p.1 p.2 h)

theorem processExercise_entryInv (date : String) (st : PRCalculationResult)
    (ex : TrainingRecordExercise)
    (h : ∀ kv ∈ st.prData, replayEntryInv kv.2) :
    ∀ kv ∈ (processExercise date st ex).prData, replayEntryInv kv.2 := by
  unfold processExercise
  apply processSet_fold_entryInv
  split
  · exact h
  · exact h

theorem processRecord_entryInv (st : PRCalculationResult) (r : TrainingRecord)
    (h : ∀ kv ∈ st.prData, replayEntryInv kv.2) :
    ∀ kv ∈ (processRecord st r).prData, replayEntryInv kv.2 := by
  unfold processRecord
  generalize r.exercises = exs
  induction exs generalizing st with
  | nil => exact h
  | cons ex rest ih =>
    exact ih _ (processExercise_entryInv r.date st ex h)

theorem replay_entryInv (records : List TrainingRecord) :
    ∀ kv ∈ (replay records).prData, replayEntryInv kv.2 := by
  unfold replay
  generalize List.insertionSort recordLe records = l
  have h : ∀ (l : List TrainingRecord) (st : PRCalculationResult),
      (∀ kv ∈ st.prData, replayEntryInv kv.2) →
      ∀ kv ∈ (l.foldl processRecord st).prData, replayEntryInv kv.2 := by
    intro l
    induction l with
    | nil => exact fun st h => h
    | cons r rest ih => exact fun st h0 => ih _ (processRecord_entryInv st r h0)
  exact h l ⟨[], [], []⟩ (by simp)

/-- The second pass changes only the two current-PR flags of an entry. -/
theorem markCurrent_fields (mW mR : NumMap) (pr : PRInfo) :
    (markCurrent mW mR pr).maxWeightPR = pr.maxWeightPR ∧
    (markCurrent mW mR pr).repPR = pr.repPR ∧
    (markCurrent mW mR pr).date = pr.date ∧
    (markCurrent mW mR pr).exercise = pr.exercise ∧
    (markCurrent mW mR pr).weight = pr.weight ∧
    (markCurrent mW mR pr).reps = pr.reps ∧
    (markCurrent mW mR pr).setIndex = pr.setIndex := by
  by_cases hex : pr.exercise = ""
  · simp [markCurrent, hex]
  · by_cases hA : (truthy pr.maxWeightPR
        && jsEq pr.weight (mapGet mW pr.exercise)) = true
    · by_cases hB : (truthy pr.repPR && jsEq pr.weight (mapGet mW pr.exercise)
          && jsEq pr.reps (mapGet mR pr.exercise)) = true
      · simp [markCurrent, hex, hA, hB]
      · simp [markCurrent, hex, hA, hB]
    · by_cases hB : (truthy pr.repPR && jsEq pr.weight (mapGet mW pr.exercise)
          && jsEq pr.reps (mapGet mR pr.exercise)) = true
      · simp [markCurrent, hex, hA, hB]
      · simp [markCurrent, hex, hA, hB]

/-- Exact condition under which the second pass sets each current-PR flag on
an entry whose current flags are still unset. -/
theorem markCurrent_current_iff (mW mR : NumMap) (pr : PRInfo)
    (h1 : pr.isCurrentMaxPR = none) (h2 : pr.isCurrentRepPR = none) :
    ((markCurrent mW mR pr).isCurrentMaxPR = some true ↔
      (pr.exercise ≠ "" ∧ truthy pr.maxWeightPR = true ∧
        jsEq pr.weight (mapGet mW pr.exercise) = true)) ∧
    ((markCurrent mW mR pr).isCurrentRepPR = some true ↔
      (pr.exercise ≠ "" ∧ truthy pr.repPR = true ∧
        jsEq pr.weight (mapGet mW pr.exercise) = true ∧
        jsEq pr.reps (mapGet mR pr.exercise) = true)) := by
  by_cases hex : pr.exercise = ""
  · simp [markCurrent, hex, h1, h2]
  · cases ha : truthy pr.maxWeightPR <;>
      cases hb : jsEq pr.weight (mapGet mW pr.exercise) <;>
      cases hc : truthy pr.repPR <;>
      cases hd : jsEq pr.reps (mapGet mR pr.exercise) <;>
      simp [markCurrent, hex, ha, hb, hc, hd, h1, h2]

/-- Every entry of a `calculatePRs` result comes from a replay entry (which
satisfies the replay invariant) via `markCurrent`, and keeps its historical
flags. -/
theorem calculatePRs_entry_flags (records : List TrainingRecord) (k : String)
    (e : PRInfo) (h : mapGet (calculatePRs records).prData k = some e) :
    e.repPR = some true ∧ e.maxWeightPR ≠ some false ∧
    ∃ e₀, mapGet (replay records).prData k = some e₀ ∧
      e = markCurrent (replay records).maxWeightByExercise
        (replay records).maxRepsAtMaxWeight e₀ ∧ replayEntryInv e₀ := by
  have h' : mapGet ((replay records).prData.map fun kv =>
      (kv.1, markCurrent (replay records).maxWeightByExercise
        (replay records).maxRepsAtMaxWeight kv.2)) k = some e := h
  rw [mapGet_map_value, Option.map_eq_some'] at h'
  obtain ⟨e₀, hget, hmk⟩ := h'
  have hinv : replayEntryInv e₀ :=
    replay_entryInv records (k, e₀) (mapGet_eq_some_mem hget)
  have hf := markCurrent_fields (replay records).maxWeightByExercise
    (replay records).maxRepsAtMaxWeight e₀
  refine ⟨?_, ?_, e₀, hget, hmk.symm, hinv⟩
  · rw [← hmk, hf.2.1]
    exact hinv.1
  · rw [← hmk, hf.1]
    exact hinv.2.1

/-! ### C10 -/

/-- **C10.** Every `PRInfo` entry stored in a `calculatePRs` result has
`repPR = true` (and `maxWeightPR` set or absent, never `false`); the rep-PR
branch stores an entry with `maxWeightPR` unset; consequently the
`maxWeightPR`-or-`repPR` filter inside `getPRSummaryForRecord` never drops a
present key for maps produced by `calculatePRs`, so the summary length equals
the count of the record's sets whose key is present. -/
theorem C10_theorem :
    (∀ (records : List TrainingRecord) (k : String) (e : PRInfo),
        mapGet (calculatePRs records).prData k = some e →
        e.repPR = some true ∧ e.maxWeightPR ≠ some false) ∧
    (∀ (date exName : String) (st : PRCalculationResult) (si : ℕ)
        (s : TrainingSet) (curW curR : ℚ),
        mapGet st.maxWeightByExercise exName = some curW →
        mapGet st.maxRepsAtMaxWeight exName = some curR →
        s.weight = curW → curR < s.reps →
        mapGet (processSet date exName st si s).prData
            (getPRKey date exName si)
          = some { maxWeightPR := none, repPR := some true,
                   isCurrentMaxPR := none, isCurrentRepPR := none,
                   date := date, exercise := exName, weight := s.weight,
                   reps := s.reps, setIndex := si }) ∧
    (∀ (records : List TrainingRecord) (record : TrainingRecord),
        (getPRSummaryForRecord record
            (calculatePRs records).prData).prSummary.length
          = presentCount record (calculatePRs records).prData) := by
  refine ⟨?_, ?_, ?_⟩
  · intro records k e h
    exact ⟨(calculatePRs_entry_flags records k e h).1,
      (calculatePRs_entry_flags records k e h).2.1⟩
  · intro date exName st si s curW curR hW hR heq hlt
    have hc1 : jsGt s.weight (mapGet st.maxWeightByExercise exName) = false := by
      rw [hW, heq]; simp [jsGt]
    have hc2 : (jsEq s.weight (mapGet st.maxWeightByExercise exName)
        && jsGt s.reps (mapGet st.maxRepsAtMaxWeight exName)) = true := by
      rw [hW, hR]; simp [jsEq, jsGt, heq, hlt]
    simp [processSet, hc1, hc2, mapGet_mapSet_self]
  · intro records record
    have h := summarizeSet_exfold_counts record.date
      (calculatePRs records).prData record.exercises
      { hasPR := false, hasNowPR := false, prSummary := [] }
    have hlen : (getPRSummaryForRecord record
        (calculatePRs records).prData).prSummary.length
        = flaggedCount record (calculatePRs records).prData := by
      simp only [getPRSummaryForRecord]
      rw [h.1]
      simp [flaggedCount, recordKeys]
    rw [hlen]
    unfold flaggedCount presentCount
    apply List.countP_congr
    intro k _
    rcases hget : mapGet (calculatePRs records).prData k with _ | e
    · simp
    · have he := calculatePRs_entry_flags records k e hget
      simp [he.1, truthy]

/-- Witness for C10: the invariant and the rep-branch shape at concrete
inputs (a 100kg×5 first set, and a 100kg×8 set against a 100kg×5 maximum). -/
theorem C10_witness :
    mapGet (calculatePRs [singleSetRecord 1 "2024-01-01" "B" 100 5]).prData
        (getPRKey "2024-01-01" "B" 0) = some benchEntry ∧
    benchEntry.repPR = some true ∧
    benchEntry.maxWeightPR ≠ some false ∧
    mapGet (processSet "2024-01-02" "B"
        ⟨[], [("B", 100)], [("B", 5)]⟩ 0 ⟨2, 1, 100, 8⟩).prData
        (getPRKey "2024-01-02" "B" 0)
      = some { maxWeightPR := none, repPR := some true,
               isCurrentMaxPR := none, isCurrentRepPR := none,
               date := "2024-01-02", exercise := "B", weight := 100,
               reps := 8, setIndex := 0 } :=
  ⟨by decide,
   (C10_theorem.1 [singleSetRecord 1 "2024-01-01" "B" 100 5]
     (getPRKey "2024-01-01" "B" 0) benchEntry (by decide)).1,
   (C10_theorem.1 [singleSetRecord 1 "2024-01-01" "B" 100 5]
     (getPRKey "2024-01-01" "B" 0) benchEntry (by decide)).2,
   C10_theorem.2.1 "2024-01-02" "B" ⟨[], [("B", 100)], [("B", 5)]⟩ 0
     ⟨2, 1, 100, 8⟩ 100 5 (by decide) (by decide) (by decide) (by decide)⟩

/-! ### C2 -/

/-- **C2 (amended).** After the replay, the second pass marks
`isCurrentMaxPR = true` exactly when the entry's exercise name is non-empty
(JS-truthy), the entry carries the historical `maxWeightPR` flag, *and* its
weight equals the final max weight of its exercise; it marks
`isCurrentRepPR = true` exactly when the name is non-empty, the entry carries
`repPR`, and weight and reps equal the final maxima.  The claim's "no other
condition, such as which historical flag the entry carries, is required" is
false: the code requires the historical flag (see the counterexample). -/
theorem C2_theorem (records : List TrainingRecord) (k : String) (e : PRInfo)
    (h : mapGet (calculatePRs records).prData k = some e) :
    (e.isCurrentMaxPR = some true ↔
      (e.exercise ≠ "" ∧ truthy e.maxWeightPR = true ∧
        jsEq e.weight
          (mapGet (calculatePRs records).maxWeightByExercise e.exercise)
          = true)) ∧
    (e.isCurrentRepPR = some true ↔
      (e.exercise ≠ "" ∧ truthy e.repPR = true ∧
        jsEq e.weight
          (mapGet (calculatePRs records).maxWeightByExercise e.exercise)
          = true ∧
        jsEq e.reps
          (mapGet (calculatePRs records).maxRepsAtMaxWeight e.exercise)
          = true)) := by
  obtain ⟨-, -, e₀, hget, hmk, hinv⟩ := calculatePRs_entry_flags records k e h
  have hf := markCurrent_fields (replay records).maxWeightByExercise
    (replay records).maxRepsAtMaxWeight e₀
  have hiff := markCurrent_current_iff (replay records).maxWeightByExercise
    (replay records).maxRepsAtMaxWeight e₀ hinv.2.2.1 hinv.2.2.2
  rw [show (calculatePRs records).maxWeightByExercise
      = (replay records).maxWeightByExercise from rfl,
    show (calculatePRs records).maxRepsAtMaxWeight
      = (replay records).maxRepsAtMaxWeight from rfl, hmk,
    hf.1, hf.2.1, hf.2.2.2.1, hf.2.2.2.2.1, hf.2.2.2.2.2.1]
  exact hiff

/-- Witness for C2: the characterization applied to the (only) entry produced
by one 100kg×5 record. -/
theorem C2_witness :
    mapGet (calculatePRs [singleSetRecord 1 "2024-01-01" "B" 100 5]).prData
        (getPRKey "2024-01-01" "B" 0) = some benchEntry ∧
    (benchEntry.isCurrentMaxPR = some true ↔
      (benchEntry.exercise ≠ "" ∧ truthy benchEntry.maxWeightPR = true ∧
        jsEq benchEntry.weight
          (mapGet (calculatePRs
              [singleSetRecord 1 "2024-01-01" "B" 100 5]).maxWeightByExercise
            benchEntry.exercise) = true)) :=
  ⟨by decide,
   (C2_theorem [singleSetRecord 1 "2024-01-01" "B" 100 5]
     (getPRKey "2024-01-01" "B" 0) benchEntry (by decide)).1⟩

/-- Counterexample to C2 as stated: after 100kg×5 then 100kg×8 (same
exercise), the rep-only second entry has weight equal to the final
`maxWeightByExercise` yet is *not* marked `isCurrentMaxPR = true`, because the
second pass also requires the historical `maxWeightPR` flag, which this entry
does not carry. -/
theorem C2_counterexample :
    mapGet (calculatePRs [singleSetRecord 1 "2024-01-01" "B" 100 5,
        singleSetRecord 2 "2024-01-02" "B" 100 8]).prData
        (getPRKey "2024-01-02" "B" 0)
      = some { maxWeightPR := none, repPR := some true,
               isCurrentMaxPR := none, isCurrentRepPR := some true,
               date := "2024-01-02", exercise := "B", weight := 100,
               reps := 8, setIndex := 0 } ∧
    mapGet (calculatePRs [singleSetRecord 1 "2024-01-01" "B" 100 5,
        singleSetRecord 2 "2024-01-02" "B" 100 8]).maxWeightByExercise "B"
      = some 100 := by decide

/-! ### C5 -/

/-- Two sorted record lists that are permutations of each other and have
pairwise-distinct dates are equal (the date order is antisymmetric up to date
equality, and distinct dates then force element equality). -/
theorem sorted_nodup_dates_unique :
    ∀ (l₁ l₂ : List TrainingRecord), l₁.Perm l₂ →
      List.Sorted recordLe l₁ → List.Sorted recordLe l₂ →
      (l₁.map fun r => r.date).Nodup → l₁ = l₂ := by
  intro l₁
  induction l₁ with
  | nil =>
    intro l₂ hp _ _ _
    exact (hp.symm.eq_nil).symm
  | cons a t₁ ih =>
    intro l₂ hp hs₁ hs₂ hnd
    cases l₂ with
    | nil => simpa using hp.eq_nil
    | cons b t₂ =>
      by_cases hab : a = b
      · subst hab
        have ht : t₁.Perm t₂ := hp.cons_inv
        rw [List.map_cons, List.nodup_cons] at hnd
        rw [ih t₂ ht hs₁.of_cons hs₂.of_cons hnd.2]
      · exfalso
        have hbmem : b ∈ a :: t₁ := hp.mem_iff.mpr (List.mem_cons_self b t₂)
        have hb₁ : b ∈ t₁ := by
          rcases List.mem_cons.mp hbmem with h | h
          · exact absurd h.symm hab
          · exact h
        have hamem : a ∈ b :: t₂ := hp.mem_iff.mp (List.mem_cons_self a t₁)
        have ha₂ : a ∈ t₂ := by
          rcases List.mem_cons.mp hamem with h | h
          · exact absurd h hab
          · exact h
        have hab' : recordLe a b := (List.sorted_cons.mp hs₁).1 b hb₁
        have hba : recordLe b a := (List.sorted_cons.mp hs₂).1 a ha₂
        have hdate : a.date = b.date := by
          have h1 : a.date.data ≤ b.date.data := hab'
          have h2 : b.date.data ≤ a.date.data := hba
          exact String.ext (le_antisymm h1 h2)
        have hmem : a.date ∈ t₁.map fun r => r.date := by
          rw [hdate]
          exact List.mem_map_of_mem _ hb₁
        rw [List.map_cons, List.nodup_cons] at hnd
        exact hnd.1 hmem

/-- **C5.** For every two record sequences that are permutations of each
other with pairwise-distinct dates, `calculatePRs` returns identical results
(identical `prData` and identical maxima mappings): the function re-sorts
internally by date, and with distinct dates the sorted order is unique. -/
theorem C5_theorem (l₁ l₂ : List TrainingRecord) (hperm : l₁.Perm l₂)
    (hnd : (l₁.map fun r => r.date).Nodup) :
    calculatePRs l₁ = calculatePRs l₂ := by
  have hsorteq : List.insertionSort recordLe l₁
      = List.insertionSort recordLe l₂ := by
    apply sorted_nodup_dates_unique
    · exact (List.perm_insertionSort recordLe l₁).trans
        (hperm.trans (List.perm_insertionSort recordLe l₂).symm)
    · exact List.sorted_insertionSort recordLe l₁
    · exact List.sorted_insertionSort recordLe l₂
    · exact (((List.perm_insertionSort recordLe l₁).map
        (fun r => r.date)).symm).nodup hnd
  unfold calculatePRs replay
  rw [hsorteq]

/-- Witness for C5: a concrete two-record list and its reversal. -/
theorem C5_witness :
    ([singleSetRecord 1 "2024-01-01" "B" 100 5,
      singleSetRecord 2 "2024-01-02" "B" 110 3].Perm
     [singleSetRecord 2 "2024-01-02" "B" 110 3,
      singleSetRecord 1 "2024-01-01" "B" 100 5]) ∧
    (([singleSetRecord 1 "2024-01-01" "B" 100 5,
       singleSetRecord 2 "2024-01-02" "B" 110 3].map fun r => r.date).Nodup) ∧
    calculatePRs [singleSetRecord 1 "2024-01-01" "B" 100 5,
        singleSetRecord 2 "2024-01-02" "B" 110 3]
      = calculatePRs [singleSetRecord 2 "2024-01-02" "B" 110 3,
          singleSetRecord 1 "2024-01-01" "B" 100 5] :=
  ⟨by decide, by decide, C5_theorem _ _ (by decide) (by decide)⟩

/-! ### C3 -/

/-- Appending a pair whose weight beats the maximum makes it the new maximum
with its reps as the sole rep record at that weight. -/
theorem maximaChar_append_gt {L : List (ℚ × ℚ)} {mw mr : ℚ} (w rp : ℚ)
    (h : maximaChar L mw mr) (hgt : mw < w) :
    maximaChar (L ++ [(w, rp)]) w rp := by
  rcases h with ⟨hL, hmw, hmr⟩ | ⟨hmem, hbound, hmemr, hboundr⟩
  · subst hL
    right
    simp
  · right
    have hnil : L.filter (fun p => decide (p.1 = w)) = [] := by
      rw [List.filter_eq_nil_iff]
      intro p hp
      simp only [decide_eq_true_eq]
      intro he
      have hb := hbound p.1 (List.mem_map_of_mem Prod.fst hp)
      rw [he] at hb
      exact absurd hgt (not_lt.mpr hb)
    refine ⟨?_, ?_, ?_, ?_⟩
    · simp
    · intro w' hw'
      rw [List.map_append] at hw'
      rcases List.mem_append.mp hw' with hh | hh
      · exact le_of_lt (lt_of_le_of_lt (hbound w' hh) hgt)
      · simp at hh
        exact le_of_eq hh
    · rw [List.filter_append, hnil]
      simp
    · intro x hx
      rw [List.filter_append, hnil] at hx
      simp at hx
      exact le_of_eq hx

/-- Appending a pair that ties the (positive) maximum weight with strictly
more reps updates the rep record only. -/
theorem maximaChar_append_eq {L : List (ℚ × ℚ)} {mw mr : ℚ} (w rp : ℚ)
    (h : maximaChar L mw mr) (hw : 0 < w) (heq : w = mw) (hlt : mr < rp) :
    maximaChar (L ++ [(w, rp)]) mw rp := by
  rcases h with ⟨hL, hmw, hmr⟩ | ⟨hmem, hbound, hmemr, hboundr⟩
  · rw [heq, hmw] at hw
    exact absurd hw (lt_irrefl 0)
  · right
    have hone : [(w, rp)].filter (fun p => decide (p.1 = mw)) = [(w, rp)] := by
      simp [heq]
    refine ⟨?_, ?_, ?_, ?_⟩
    · rw [List.map_append]
      exact List.mem_append.mpr (Or.inl hmem)
    · intro w' hw'
      rw [List.map_append] at hw'
      rcases List.mem_append.mp hw' with hh | hh
      · exact hbound w' hh
      · simp at hh
        rw [hh, heq]
    · rw [List.filter_append, hone, List.map_append]
      exact List.mem_append.mpr (Or.inr (by simp))
    · intro x hx
      rw [List.filter_append, hone, List.map_append] at hx
      rcases List.mem_append.mp hx with hh | hh
      · exact le_of_lt (lt_of_le_of_lt (hboundr x hh) hlt)
      · simp at hh
        exact le_of_eq hh

/-- Appending a pair that neither beats the maximum weight nor ties it with
more reps leaves the characterization unchanged. -/
theorem maximaChar_append_keep {L : List (ℚ × ℚ)} {mw mr : ℚ} (w rp : ℚ)
    (h : maximaChar L mw mr) (hw : 0 < w)
    (hcase : w < mw ∨ (w = mw ∧ rp ≤ mr)) :
    maximaChar (L ++ [(w, rp)]) mw mr := by
  rcases h with ⟨hL, hmw, hmr⟩ | ⟨hmem, hbound, hmemr, hboundr⟩
  · exfalso
    rcases hcase with hc | ⟨hc, _⟩
    · rw [hmw] at hc
      exact absurd (lt_trans hw hc) (lt_irrefl 0)
    · rw [hmw] at hc
      rw [hc] at hw
      exact lt_irrefl 0 hw
  · right
    refine ⟨?_, ?_, ?_, ?_⟩
    · rw [List.map_append]
      exact List.mem_append.mpr (Or.inl hmem)
    · intro w' hw'
      rw [List.map_append] at hw'
      rcases List.mem_append.mp hw' with hh | hh
      · exact hbound w' hh
      · simp at hh
        rcases hcase with hc | ⟨hc, _⟩
        · rw [hh]
          exact le_of_lt hc
        · rw [hh, hc]
    · rcases hcase with hc | ⟨hc, hrp⟩
      · have hnil : [(w, rp)].filter (fun p => decide (p.1 = mw)) = [] := by
          simp [ne_of_lt hc]
        rw [List.filter_append, hnil, List.append_nil]
        exact hmemr
      · have hone : [(w, rp)].filter (fun p => decide (p.1 = mw)) = [(w, rp)] := by
          simp [hc]
        rw [List.filter_append, hone, List.map_append]
        exact List.mem_append.mpr (Or.inl hmemr)
    · intro x hx
      rcases hcase with hc | ⟨hc, hrp⟩
      · have hnil : [(w, rp)].filter (fun p => decide (p.1 = mw)) = [] := by
          simp [ne_of_lt hc]
        rw [List.filter_append, hnil, List.append_nil] at hx
        exact hboundr x hx
      · have hone : [(w, rp)].filter (fun p => decide (p.1 = mw)) = [(w, rp)] := by
          simp [hc]
        rw [List.filter_append, hone, List.map_append] at hx
        rcases List.mem_append.mp hx with hh | hh
        · exact hboundr x hh
        · simp at hh
          rw [hh]
          exact hrp

theorem processSet_char (date n : String) (st : PRCalculationResult) (si : ℕ)
    (s : TrainingSet) {L : List (ℚ × ℚ)} {mw mr : ℚ}
    (hmw : mapGet st.maxWeightByExercise n = some mw)
    (hmr : mapGet st.maxRepsAtMaxWeight n = some mr)
    (hchar : maximaChar L mw mr) (hw : 0 < s.weight) :
    ∃ mw' mr',
      mapGet (processSet date n st si s).maxWeightByExercise n = some mw' ∧
      mapGet (processSet date n st si s).maxRepsAtMaxWeight n = some mr' ∧
      maximaChar (L ++ [(s.weight, s.reps)]) mw' mr' := by
  by_cases hgt : mw < s.weight
  · have hc : jsGt s.weight (some mw) = true := by simp [jsGt, hgt]
    refine ⟨s.weight, s.reps, ?_, ?_,
      maximaChar_append_gt s.weight s.reps hchar hgt⟩
    · simp [processSet, hmw, hc, mapGet_mapSet_self]
    · simp [processSet, hmw, hc, mapGet_mapSet_self]
  · have hc1 : jsGt s.weight (some mw) = false := by simp [jsGt, hgt]
    by_cases heq : s.weight = mw
    · by_cases hrp : mr < s.reps
      · have hq : jsEq s.weight (some mw) = true := by simp [jsEq, heq]
        have hg : jsGt s.reps (some mr) = true := by simp [jsGt, hrp]
        refine ⟨mw, s.reps, ?_, ?_,
          maximaChar_append_eq s.weight s.reps hchar hw heq hrp⟩
        · simp [processSet, hmw, hmr, hc1, hq, hg]
        · simp [processSet, hmw, hmr, hc1, hq, hg, mapGet_mapSet_self]
      · have hq : jsEq s.weight (some mw) = true := by simp [jsEq, heq]
        have hg : jsGt s.reps (some mr) = false := by simp [jsGt, hrp]
        refine ⟨mw, mr, ?_, ?_,
          maximaChar_append_keep s.weight s.reps hchar hw
            (Or.inr ⟨heq, not_lt.mp hrp⟩)⟩
        · simp [processSet, hmw, hmr, hc1, hq, hg]
        · simp [processSet, hmw, hmr, hc1, hq, hg]
    · have hq : jsEq s.weight (some mw) = false := by simp [jsEq, heq]
      have hlt : s.weight < mw := lt_of_le_of_ne (not_lt.mp hgt) heq
      refine ⟨mw, mr, ?_, ?_,
        maximaChar_append_keep s.weight s.reps hchar hw (Or.inl hlt)⟩
      · simp [processSet, hmw, hmr, hc1, hq]
      · simp [processSet, hmw, hmr, hc1, hq]

theorem processSet_fold_char (date n : String) (ps : List (ℕ × TrainingSet)) :
    ∀ (st : PRCalculationResult) (L : List (ℚ × ℚ)) (mw mr : ℚ),
      mapGet st.maxWeightByExercise n = some mw →
      mapGet st.maxRepsAtMaxWeight n = some mr →
      maximaChar L mw mr →
      (∀ p ∈ ps, 0 < p.2.weight) →
      ∃ mw' mr',
        mapGet ((ps.foldl (fun acc p => processSet date n acc p.1 p.2)
          st).maxWeightByExercise) n = some mw' ∧
        mapGet ((ps.foldl (fun acc p => processSet date n acc p.1 p.2)
          st).maxRepsAtMaxWeight) n = some mr' ∧
        maximaChar (L ++ ps.map fun p => (p.2.weight, p.2.reps)) mw' mr' := by
  induction ps with
  | nil =>
    intro st L mw mr hmw hmr hchar _
    exact ⟨mw, mr, hmw, hmr, by simpa using hchar⟩
  | cons p rest ih =>
    intro st L mw mr hmw hmr hchar hpos
    simp only [List.foldl_cons]
    obtain ⟨mw1, mr1, h1, h2, hchar1⟩ :=
      processSet_char date n st p.1 p.2 hmw hmr hchar
        (hpos p (List.mem_cons_self p rest))
    obtain ⟨mw2, mr2, h1', h2', hchar2⟩ :=
      ih _ _ _ _ h1 h2 hchar1 (fun q hq => hpos q (List.mem_cons_of_mem p hq))
    refine ⟨mw2, mr2, h1', h2', ?_⟩
    rw [List.map_cons, List.append_cons]
    exact hchar2

theorem enum_pairs_eq (sets : List TrainingSet) :
    sets.enum.map (fun p => (p.2.weight, p.2.reps))
      = sets.map fun s => (s.weight, s.reps) := by
  rw [show (fun p : ℕ × TrainingSet => (p.2.weight, p.2.reps))
      = (fun s : TrainingSet => (s.weight, s.reps)) ∘ Prod.snd from rfl,
    ← List.map_map, List.enum_map_snd]

theorem enum_pos (sets : List TrainingSet)
    (hpos : ∀ s ∈ sets, 0 < s.weight) :
    ∀ p ∈ sets.enum, 0 < p.2.weight := by
  intro p hp
  apply hpos
  have h : p.2 ∈ sets.enum.map Prod.snd := List.mem_map_of_mem Prod.snd hp
  rwa [List.enum_map_snd] at h

theorem processExercise_char (date : String) (st : PRCalculationResult)
    (ex : TrainingRecordExercise) (n : String) (L : List (ℚ × ℚ))
    (hinv : trackInv n L st) (hposL : ∀ p ∈ L, 0 < p.1)
    (hpos : ∀ s ∈ ex.sets, 0 < s.weight) :
    trackInv n (L ++ (if ex.name = n then
      ex.sets.map fun s => (s.weight, s.reps) else []))
      (processExercise date st ex) := by
  by_cases hname : ex.name = n
  case neg =>
    rw [if_neg hname, List.append_nil]
    have hfr := processExercise_frame date st ex (fun e => hname e.symm)
    rcases hinv with ⟨h1, h2, h3⟩ | ⟨mw, mr, h1, h2, h3⟩
    · exact Or.inl ⟨hfr.1.trans h1, hfr.2.trans h2, h3⟩
    · exact Or.inr ⟨mw, mr, hfr.1.trans h1, hfr.2.trans h2, h3⟩
  case pos =>
    rw [if_pos hname]
    simp only [processExercise]
    rw [hname]
    rcases hinv with ⟨h1, h2, h3⟩ | ⟨mw, mr, h1, h2, h3⟩
    · subst h3
      have hini : jsFalsyNum (mapGet st.maxWeightByExercise n) = true := by
        rw [h1]; rfl
      rw [if_pos hini]
      obtain ⟨mw2, mr2, ha, hb, hc⟩ := processSet_fold_char date n ex.sets.enum
        { st with maxWeightByExercise := mapSet st.maxWeightByExercise n 0,
                  maxRepsAtMaxWeight := mapSet st.maxRepsAtMaxWeight n 0 }
        [] 0 0 (mapGet_mapSet_self _ _ _) (mapGet_mapSet_self _ _ _)
        (Or.inl ⟨rfl, rfl, rfl⟩) (enum_pos ex.sets hpos)
      refine Or.inr ⟨mw2, mr2, ha, hb, ?_⟩
      rw [enum_pairs_eq] at hc
      simpa using hc
    · by_cases hz : mw = 0
      · have hL0 : L = [] ∧ mr = 0 := by
          rcases h3 with ⟨hL, _, hmr0⟩ | ⟨hmem, _, _, _⟩
          · exact ⟨hL, hmr0⟩
          · exfalso
            obtain ⟨p, hp, hpe⟩ := List.mem_map.mp hmem
            have := hposL p hp
            rw [hpe, hz] at this
            exact lt_irrefl 0 this
        obtain ⟨hL, _⟩ := hL0
        subst hL
        have hini : jsFalsyNum (mapGet st.maxWeightByExercise n) = true := by
          rw [h1]; simp [jsFalsyNum, hz]
        rw [if_pos hini]
        obtain ⟨mw2, mr2, ha, hb, hc⟩ := processSet_fold_char date n ex.sets.enum
          { st with maxWeightByExercise := mapSet st.maxWeightByExercise n 0,
                    maxRepsAtMaxWeight := mapSet st.maxRepsAtMaxWeight n 0 }
          [] 0 0 (mapGet_mapSet_self _ _ _) (mapGet_mapSet_self _ _ _)
          (Or.inl ⟨rfl, rfl, rfl⟩) (enum_pos ex.sets hpos)
        refine Or.inr ⟨mw2, mr2, ha, hb, ?_⟩
        rw [enum_pairs_eq] at hc
        simpa using hc
      · have hini : ¬ jsFalsyNum (mapGet st.maxWeightByExercise n) = true := by
          rw [h1]; simp [jsFalsyNum, hz]
        rw [if_neg hini]
        obtain ⟨mw2, mr2, ha, hb, hc⟩ := processSet_fold_char date n ex.sets.enum
          st L mw mr h1 h2 h3 (enum_pos ex.sets hpos)
        refine Or.inr ⟨mw2, mr2, ha, hb, ?_⟩
        rwa [enum_pairs_eq] at hc

theorem trackInv_exfold (date : String) (n : String)
    (exs : List TrainingRecordExercise) :
    ∀ (st : PRCalculationResult) (L : List (ℚ × ℚ)),
      trackInv n L st → (∀ p ∈ L, 0 < p.1) →
      (∀ ex ∈ exs, ∀ s ∈ ex.sets, 0 < s.weight) →
      trackInv n (L ++ exsSets n exs)
        (exs.foldl (processExercise date) st) := by
  induction exs with
  | nil =>
    intro st L hinv _ _
    simpa [exsSets] using hinv
  | cons ex rest ih =>
    intro st L hinv hposL hpos
    simp only [List.foldl_cons]
    have hstep := processExercise_char date st ex n L hinv hposL
      (hpos ex (List.mem_cons_self ex rest))
    have hposL' : ∀ p ∈ L ++ (if ex.name = n then
        ex.sets.map fun s => (s.weight, s.reps) else []), 0 < p.1 := by
      intro p hp
      rcases List.mem_append.mp hp with hh | hh
      · exact hposL p hh
      · by_cases hname : ex.name = n
        · rw [if_pos hname] at hh
          obtain ⟨q, hq, he⟩ := List.mem_map.mp hh
          rw [← he]
          exact hpos ex (List.mem_cons_self ex rest) q hq
        · rw [if_neg hname] at hh
          simp at hh
    have hrest := ih _ _ hstep hposL'
      (fun e he => hpos e (List.mem_cons_of_mem ex he))
    have hsets : exsSets n (ex :: rest)
        = (if ex.name = n then ex.sets.map fun s => (s.weight, s.reps) else [])
          ++ exsSets n rest := by
      by_cases hname : ex.name = n
      · simp [exsSets, hname]
      · simp [exsSets, hname]
    rw [hsets, ← List.append_assoc]
    exact hrest

theorem trackInv_recfold (n : String) (rs : List TrainingRecord) :
    ∀ (st : PRCalculationResult) (L : List (ℚ × ℚ)),
      trackInv n L st → (∀ p ∈ L, 0 < p.1) →
      (∀ r ∈ rs, ∀ ex ∈ r.exercises, ∀ s ∈ ex.sets, 0 < s.weight) →
      trackInv n (L ++ rs.flatMap (recSets n)) (rs.foldl processRecord st) := by
  induction rs with
  | nil =>
    intro st L hinv _ _
    simpa using hinv
  | cons r rest ih =>
    intro st L hinv hposL hpos
    simp only [List.foldl_cons, List.flatMap_cons]
    have hstep : trackInv n (L ++ recSets n r) (processRecord st r) := by
      unfold processRecord recSets
      exact trackInv_exfold r.date n r.exercises st L hinv hposL
        (hpos r (List.mem_cons_self r rest))
    have hposL' : ∀ p ∈ L ++ recSets n r, 0 < p.1 := by
      intro p hp
      rcases List.mem_append.mp hp with hh | hh
      · exact hposL p hh
      · unfold recSets exsSets at hh
        obtain ⟨ex, hex, hp2⟩ := List.mem_flatMap.mp hh
        obtain ⟨q, hq, he⟩ := List.mem_map.mp hp2
        rw [← he]
        exact hpos r (List.mem_cons_self r rest) ex
          (List.mem_filter.mp hex).1 q hq
    have hrest := ih _ _ hstep hposL'
      (fun x hx => hpos x (List.mem_cons_of_mem r hx))
    rw [← List.append_assoc]
    exact hrest

theorem replay_trackInv (records : List TrainingRecord) (n : String)
    (hpos : ∀ r ∈ records, ∀ ex ∈ r.exercises, ∀ s ∈ ex.sets, 0 < s.weight) :
    trackInv n (allSets n (List.insertionSort recordLe records))
      (replay records) := by
  unfold replay allSets
  have hbase : trackInv n [] ⟨[], [], []⟩ := Or.inl ⟨rfl, rfl, rfl⟩
  have hpos' : ∀ r ∈ List.insertionSort recordLe records, ∀ ex ∈ r.exercises,
      ∀ s ∈ ex.sets, 0 < s.weight := fun r hr =>
    hpos r ((List.perm_insertionSort recordLe records).mem_iff.mp hr)
  have h := trackInv_recfold n (List.insertionSort recordLe records)
    ⟨[], [], []⟩ [] hbase (by simp) hpos'
  simpa using h

/-- **C3 (amended).** For records whose set weights are all strictly
positive, the returned `maxWeightByExercise` maps each exercise name with at
least one set to the maximum set weight over all its sets across all records,
and `maxRepsAtMaxWeight` maps it to the maximum reps over those of its sets
whose weight equals that maximum (stated as: the stored value is a member of
the collection and an upper bound of it).  With weight-0 sets the claim is
false — the falsy re-initialization forgets earlier weight-0 rep records, see
the counterexample. -/
theorem C3_theorem (records : List TrainingRecord) (n : String)
    (hpos : ∀ r ∈ records, ∀ ex ∈ r.exercises, ∀ s ∈ ex.sets, 0 < s.weight)
    (hne : allSets n records ≠ []) :
    ∃ mw mr,
      mapGet (calculatePRs records).maxWeightByExercise n = some mw ∧
      mapGet (calculatePRs records).maxRepsAtMaxWeight n = some mr ∧
      mw ∈ (allSets n records).map Prod.fst ∧
      (∀ w ∈ (allSets n records).map Prod.fst, w ≤ mw) ∧
      mr ∈ ((allSets n records).filter fun p => decide (p.1 = mw)).map
        Prod.snd ∧
      (∀ x ∈ ((allSets n records).filter fun p => decide (p.1 = mw)).map
        Prod.snd, x ≤ mr) := by
  have hperm : (allSets n (List.insertionSort recordLe records)).Perm
      (allSets n records) :=
    List.Perm.flatMap_right (recSets n)
      (List.perm_insertionSort recordLe records)
  have htrack := replay_trackInv records n hpos
  have hne' : allSets n (List.insertionSort recordLe records) ≠ [] := by
    intro h0
    have h2 := hperm
    rw [h0] at h2
    exact hne h2.symm.eq_nil
  rcases htrack with ⟨_, _, hL⟩ | ⟨mw, mr, hmw, hmr, hchar⟩
  · exact absurd hL hne'
  · rcases hchar with ⟨hL, _, _⟩ | ⟨hmem, hbound, hmemr, hboundr⟩
    · exact absurd hL hne'
    · refine ⟨mw, mr, hmw, hmr, ?_, ?_, ?_, ?_⟩
      · exact ((hperm.map Prod.fst).mem_iff).mp hmem
      · intro w hw
        exact hbound w (((hperm.map Prod.fst).mem_iff).mpr hw)
      · exact (((hperm.filter fun p => decide (p.1 = mw)).map
          Prod.snd).mem_iff).mp hmemr
      · intro x hx
        exact hboundr x ((((hperm.filter fun p => decide (p.1 = mw)).map
          Prod.snd).mem_iff).mpr hx)

/-- Witness for C3: two positive-weight records (100kg×5 then 100kg×8). -/
theorem C3_witness :
    (∀ r ∈ [singleSetRecord 1 "2024-01-01" "B" 100 5,
        singleSetRecord 2 "2024-01-02" "B" 100 8],
      ∀ ex ∈ r.exercises, ∀ s ∈ ex.sets, 0 < s.weight) ∧
    allSets "B" [singleSetRecord 1 "2024-01-01" "B" 100 5,
      singleSetRecord 2 "2024-01-02" "B" 100 8] ≠ [] ∧
    (∃ mw mr,
      mapGet (calculatePRs [singleSetRecord 1 "2024-01-01" "B" 100 5,
        singleSetRecord 2 "2024-01-02" "B" 100 8]).maxWeightByExercise "B"
        = some mw ∧
      mapGet (calculatePRs [singleSetRecord 1 "2024-01-01" "B" 100 5,
        singleSetRecord 2 "2024-01-02" "B" 100 8]).maxRepsAtMaxWeight "B"
        = some mr ∧
      mw ∈ (allSets "B" [singleSetRecord 1 "2024-01-01" "B" 100 5,
        singleSetRecord 2 "2024-01-02" "B" 100 8]).map Prod.fst ∧
      (∀ w ∈ (allSets "B" [singleSetRecord 1 "2024-01-01" "B" 100 5,
        singleSetRecord 2 "2024-01-02" "B" 100 8]).map Prod.fst, w ≤ mw) ∧
      mr ∈ ((allSets "B" [singleSetRecord 1 "2024-01-01" "B" 100 5,
        singleSetRecord 2 "2024-01-02" "B" 100 8]).filter fun p =>
          decide (p.1 = mw)).map Prod.snd ∧
      (∀ x ∈ ((allSets "B" [singleSetRecord 1 "2024-01-01" "B" 100 5,
        singleSetRecord 2 "2024-01-02" "B" 100 8]).filter fun p =>
          decide (p.1 = mw)).map Prod.snd, x ≤ mr)) :=
  ⟨by decide, by decide,
   C3_theorem [singleSetRecord 1 "2024-01-01" "B" 100 5,
     singleSetRecord 2 "2024-01-02" "B" 100 8] "B" (by decide) (by decide)⟩

/-- Counterexample to C3 as stated: with 0kg×10 then 0kg×3 for the same
exercise, the final max weight is 0, the weight-0 sets have maximum reps 10,
yet `maxRepsAtMaxWeight` returns 3 (the re-initialization on the second visit
reset the rep counter before the 0kg×3 set was scanned). -/
theorem C3_counterexample :
    mapGet (calculatePRs [singleSetRecord 1 "2024-01-01" "E" 0 10,
        singleSetRecord 2 "2024-01-02" "E" 0 3]).maxWeightByExercise "E"
      = some 0 ∧
    mapGet (calculatePRs [singleSetRecord 1 "2024-01-01" "E" 0 10,
        singleSetRecord 2 "2024-01-02" "E" 0 3]).maxRepsAtMaxWeight "E"
      = some 3 ∧
    (10 : ℚ) ∈ ((allSets "E" [singleSetRecord 1 "2024-01-01" "E" 0 10,
        singleSetRecord 2 "2024-01-02" "E" 0 3]).filter fun p =>
        decide (p.1 = 0)).map Prod.snd ∧
    ¬ ((10 : ℚ) ≤ 3) := by decide

end Fithub
